import Mathlib

/-!
Verification of the dependency-graph core of the cobol-analyzer repository.

The definitions below are a shallow embedding of `src/graph_visualizer.py`
(class `DependencyGraphGenerator`) together with the `ProgramInfo` records
produced by `src/cobol_analyzer.py`.  The networkx `DiGraph` used by the
Python code is embedded as an association list of nodes (keyed by id, each
carrying an attribute record) plus an association list of edges keyed by the
ordered pair of endpoints, with the last written `edge_type` attribute, which
is exactly the networkx update semantics of `add_node` and `add_edge`.
-/

namespace CobolAnalyzer

/-- Embedding of the `ProgramInfo` dataclass of `src/cobol_analyzer.py`.
`program_id` is `none` when `_extract_program_id` found no PROGRAM-ID. -/
structure ProgramInfo where
  program_id : Option String
  file_path : String := ""
  file_name : String := ""
  calls : List String := []
  files_used : List String := []
  procedures : List String := []
  lines_of_code : Nat := 0
deriving DecidableEq, Repr

/-- The node key used by `build_graph`: the Python expression
`info.program_id or info.file_name`, which falls back to the file name when
the program id is `None` or the empty string. -/
def progKey (info : ProgramInfo) : String :=
  match info.program_id with
  | some s => if s = "" then info.file_name else s
  | none => info.file_name

/-- Attributes the Python code stores on a networkx node.  A `none` field
means the corresponding attribute key is absent from the attribute dict. -/
structure NodeAttrs where
  node_type : Option String := none
  loc : Option Nat := none
  file : Option String := none
deriving DecidableEq, Repr

/-- State of a `DependencyGraphGenerator` object: the networkx graph
(`graph_nodes`, `graph_edges`), the bookkeeping sets `program_nodes` and
`file_nodes`, and the bookkeeping lists `call_edges` and `file_edges`. -/
structure GenState where
  analyzers : List ProgramInfo
  graph_nodes : List (String × NodeAttrs)
  graph_edges : List (String × String × String)
  program_nodes : List String
  file_nodes : List String
  call_edges : List (String × String)
  file_edges : List (String × String)
deriving DecidableEq, Repr

/-- `DependencyGraphGenerator.__init__`. -/
def initState (as : List ProgramInfo) : GenState :=
  { analyzers := as, graph_nodes := [], graph_edges := [],
    program_nodes := [], file_nodes := [], call_edges := [], file_edges := [] }

/-- Python `set.add`: insert if not already a member. -/
def insertSet (l : List String) (x : String) : List String :=
  if x ∈ l then l else l ++ [x]

/-- networkx `add_node(id, **attrs)`: if the node exists its attribute dict
is updated by `f`; otherwise the node is appended with `f` applied to the
empty attribute dict. -/
def updNodeAttrs (ns : List (String × NodeAttrs)) (id : String)
    (f : NodeAttrs → NodeAttrs) : List (String × NodeAttrs) :=
  if (∃ p ∈ ns, p.1 = id) then
    ns.map (fun p => if p.1 = id then (p.1, f p.2) else p)
  else ns ++ [(id, f {})]

/-- networkx `add_edge(u, v, edge_type=t)` on the edge list: the edge is
keyed by the ordered pair `(u, v)`; re-adding it overwrites `edge_type`. -/
def updEdges (es : List (String × String × String)) (u v t : String) :
    List (String × String × String) :=
  if (∃ e ∈ es, e.1 = u ∧ e.2.1 = v) then
    es.map (fun e => if e.1 = u ∧ e.2.1 = v then (u, v, t) else e)
  else es ++ [(u, v, t)]

/-- `self.graph.add_node(id, ...)` lifted to the generator state. -/
def addGraphNode (st : GenState) (id : String) (f : NodeAttrs → NodeAttrs) :
    GenState :=
  { st with graph_nodes := updNodeAttrs st.graph_nodes id f }

/-- `self.graph.add_edge(u, v, edge_type=t)` lifted to the generator state.
networkx also inserts missing endpoints with an empty attribute dict. -/
def addGraphEdge (st : GenState) (u v t : String) : GenState :=
  { st with
    graph_nodes := updNodeAttrs (updNodeAttrs st.graph_nodes u (fun a => a)) v
      (fun a => a),
    graph_edges := updEdges st.graph_edges u v t }

/-- The attribute update performed by
`add_node(program_id, node_type='program', loc=..., file=...)`. -/
def setProgramFull (info : ProgramInfo) (a : NodeAttrs) : NodeAttrs :=
  { a with node_type := some "program", loc := some info.lines_of_code,
           file := some info.file_name }

/-- The attribute update performed by `add_node(called, node_type='program')`. -/
def setProgramKind (a : NodeAttrs) : NodeAttrs :=
  { a with node_type := some "program" }

/-- The attribute update performed by `add_node(file_name, node_type='file')`. -/
def setFileKind (a : NodeAttrs) : NodeAttrs :=
  { a with node_type := some "file" }

/-- Body of the `for called_program in info.calls` loop of `build_graph`:
append to `call_edges`, `add_node(called, node_type='program')`, then
`add_edge(program_id, called, edge_type='calls')`. -/
def ingestCall (pid : String) (st : GenState) (called : String) : GenState :=
  addGraphEdge
    (addGraphNode { st with call_edges := st.call_edges ++ [(pid, called)] }
      called setProgramKind)
    pid called "calls"

/-- Body of the `for file_name in info.files_used` loop of `build_graph`:
record the file node and edge, `add_node(file_name, node_type='file')`, then
`add_edge(program_id, file_name, edge_type='uses')`. -/
def ingestFile (pid : String) (st : GenState) (fn : String) : GenState :=
  addGraphEdge
    (addGraphNode { st with file_nodes := insertSet st.file_nodes fn,
                            file_edges := st.file_edges ++ [(pid, fn)] }
      fn setFileKind)
    pid fn "uses"

/-- Body of the `for analyzer in self.analyzers` loop of `build_graph`. -/
def ingestFact (st : GenState) (info : ProgramInfo) : GenState :=
  info.files_used.foldl (ingestFile (progKey info))
    (info.calls.foldl (ingestCall (progKey info))
      (addGraphNode
        { st with program_nodes := insertSet st.program_nodes (progKey info) }
        (progKey info) (setProgramFull info)))

/-- `DependencyGraphGenerator.build_graph`. -/
def build_graph (st : GenState) : GenState :=
  st.analyzers.foldl ingestFact st

/-- The lazy-build guard `if not self.graph.nodes(): self.build_graph()`
shared by `get_statistics` and `find_circular_dependencies`. -/
def buildIfEmpty (st : GenState) : GenState :=
  if st.graph_nodes = [] then build_graph st else st

/-- Building a fresh generator from a list of facts. -/
def buildFrom (as : List ProgramInfo) : GenState :=
  build_graph (initState as)

/-- Node id list of the embedded graph. -/
def nodeIds (st : GenState) : List String :=
  st.graph_nodes.map Prod.fst

/-- Edge endpoint pairs of the embedded graph. -/
def edgePairs (st : GenState) : List (String × String) :=
  st.graph_edges.map (fun e => (e.1, e.2.1))

/-- Look up the attribute record stored under a key in a node list. -/
def attrOf (ns : List (String × NodeAttrs)) (id : String) : Option NodeAttrs :=
  (ns.find? (fun p => p.1 = id)).map Prod.snd

/-- Look up the attribute record of a node. -/
def nodeAttr (st : GenState) (id : String) : Option NodeAttrs :=
  attrOf st.graph_nodes id

/-- Cyclically consecutive pairs of a list. -/
def cyclePairs (c : List String) : List (String × String) :=
  c.zip (c.rotate 1)

/-- An elementary cycle of the directed graph with vertex list `ns` and edge
pair list `es`: a nonempty duplicate-free vertex sequence whose cyclically
consecutive pairs are all edges. -/
def IsElemCycle (ns : List String) (es : List (String × String))
    (c : List String) : Prop :=
  c ≠ [] ∧ c.Nodup ∧ (∀ x ∈ c, x ∈ ns) ∧ ∀ p ∈ cyclePairs c, p ∈ es

instance (ns : List String) (es : List (String × String)) (c : List String) :
    Decidable (IsElemCycle ns es c) := by
  unfold IsElemCycle; infer_instance

/-- `d` is a cyclic rotation of `c`. -/
def IsRotation (c d : List String) : Prop :=
  ∃ n, c.rotate n = d

/-- The canonical representative of a rotation class: the head occurs at the
least position (in `ns`) among the members of the list. -/
def canonList (ns : List String) : List String → Bool
  | [] => false
  | h :: t => (h :: t).all (fun x => ns.indexOf h ≤ ns.indexOf x)

/-- Modelled from the networkx library contract: `nx.simple_cycles` returns
every elementary cycle of its input digraph exactly once, rotations not
repeated.  Here realised as a filter over all permutations of all duplicate
free vertex subsets, keeping exactly the canonical representative of each
rotation class of elementary cycles. -/
def simpleCycles (ns : List String) (es : List (String × String)) :
    List (List String) :=
  (ns.dedup.sublists.flatMap List.permutations').filter
    (fun c => decide (IsElemCycle ns.dedup es c) && canonList ns.dedup c)

/-- The restricted edge list built by `find_circular_dependencies`: recorded
call pairs whose two endpoints are both analyzed program ids. -/
def restrictedCallEdges (st : GenState) : List (String × String) :=
  st.call_edges.filter
    (fun p => decide (p.1 ∈ st.program_nodes) && decide (p.2 ∈ st.program_nodes))

/-- The cycle enumeration inside the `try` block of
`find_circular_dependencies`; an `Except.error` value models the enumeration
raising an exception. -/
def cyclesAttempt (st : GenState) : Except String (List (List String)) :=
  Except.ok (simpleCycles st.program_nodes (restrictedCallEdges st))

/-- The `try ... except: return []` wrapper of `find_circular_dependencies`. -/
def recoverCycles (r : Except String (List (List String))) :
    List (List String) :=
  match r with
  | Except.ok cs => cs
  | Except.error _ => []

/-- `DependencyGraphGenerator.find_circular_dependencies`, returning the
cycle list together with the (possibly lazily built) generator state. -/
def find_circular_dependencies (st : GenState) :
    List (List String) × GenState :=
  let st := buildIfEmpty st
  (recoverCycles (cyclesAttempt st), st)

/-- One breadth step of reachability over the graph edge list. -/
def stepReach (es : List (String × String × String)) (seen : List String) :
    List String :=
  seen ++ (es.filter
    (fun e => decide (e.1 ∈ seen) && decide (e.2.1 ∉ seen))).map (fun e => e.2.1)

/-- Iterated reachability steps. -/
def reachIter (es : List (String × String × String)) :
    Nat → List String → List String
  | 0, seen => seen
  | Nat.succ k, seen => reachIter es k (stepReach es seen)

/-- The vertices reachable from `u` (including `u`) within `fuel` steps. -/
def reachableFrom (es : List (String × String × String)) (fuel : Nat)
    (u : String) : List String :=
  reachIter es fuel [u]

/-- Mutual reachability, the strongly-connected-component relation. -/
def sameSCC (es : List (String × String × String)) (fuel : Nat)
    (u v : String) : Prop :=
  v ∈ reachableFrom es fuel u ∧ u ∈ reachableFrom es fuel v

instance (es : List (String × String × String)) (fuel : Nat) (u v : String) :
    Decidable (sameSCC es fuel u v) := by
  unfold sameSCC; infer_instance

/-- Modelled from the networkx library contract:
`nx.number_strongly_connected_components` counts the strongly connected
components, realised as the number of mutual-reachability classes: a node is
counted when it is the first member of its class in the node list. -/
def sccCount (nodes : List String) (es : List (String × String × String)) :
    Nat :=
  (nodes.filter (fun u =>
    decide (nodes.find? (fun w => decide (sameSCC es nodes.length u w)) =
      some u))).length

/-- Modelled from the networkx library contract: `nx.isolates` lists the
nodes with no incident edge in either direction. -/
def isolatedCount (st : GenState) : Nat :=
  ((st.graph_nodes.map Prod.fst).filter (fun n =>
    decide (∀ e ∈ st.graph_edges, e.1 ≠ n ∧ e.2.1 ≠ n))).length

/-- The dictionary returned by `DependencyGraphGenerator.get_statistics`. -/
structure Statistics where
  total_nodes : Nat
  program_nodes : Nat
  file_nodes : Nat
  total_edges : Nat
  call_edges : Nat
  file_edges : Nat
  isolated_programs : Nat
  strongly_connected_components : Nat
deriving DecidableEq, Repr

/-- The field-by-field content of the statistics dictionary. -/
def statsOf (st : GenState) : Statistics :=
  { total_nodes := st.graph_nodes.length
    program_nodes := st.program_nodes.length
    file_nodes := st.file_nodes.length
    total_edges := st.graph_edges.length
    call_edges := st.call_edges.length
    file_edges := st.file_edges.length
    isolated_programs := isolatedCount st
    strongly_connected_components :=
      sccCount (st.graph_nodes.map Prod.fst) st.graph_edges }

/-- `DependencyGraphGenerator.get_statistics`, returning the statistics
together with the (possibly lazily built) generator state. -/
def get_statistics (st : GenState) : Statistics × GenState :=
  let st := buildIfEmpty st
  (statsOf st, st)

/-- The Program-kind node ids of the built graph, read from the node
attributes, as the specification describes the cycle-search input. -/
def attrProgramNodes (st : GenState) : List String :=
  (st.graph_nodes.filter (fun p => decide (p.2.node_type = some "program"))).map
    Prod.fst

/-- The Calls edges of the built graph between Program-kind nodes, read from
the edge attributes, as the specification describes the cycle-search input. -/
def attrCallEdges (st : GenState) : List (String × String) :=
  (st.graph_edges.filter (fun e => decide (e.2.2 = "calls" ∧
    e.1 ∈ attrProgramNodes st ∧ e.2.1 ∈ attrProgramNodes st))).map
    (fun e => (e.1, e.2.1))

/-- Convenience constructor for concrete facts. -/
def mkFact (pid : Option String) (fn : String) (loc : Nat)
    (cs fs : List String) : ProgramInfo :=
  { program_id := pid, file_path := fn, file_name := fn, calls := cs,
    files_used := fs, procedures := [], lines_of_code := loc }

/-- The three-program concrete scenario of the specification:
A calls B and C, B calls C, C calls A. -/
def exABC : List ProgramInfo :=
  [mkFact (some "A") "a.cob" 1 ["B", "C"] [],
   mkFact (some "B") "b.cob" 1 ["C"] [],
   mkFact (some "C") "c.cob" 1 ["A"] []]

/-- Two facts with the same program id `P` and differing line counts. -/
def exConflict : List ProgramInfo :=
  [mkFact (some "P") "f1" 10 [] [], mkFact (some "P") "f2" 50 [] []]

/-- A fact whose program id is missing. -/
def exNoId : ProgramInfo := mkFact none "F.cob" 3 [] []

/-- A calls B and also uses a file resource named B; B calls A.  The second
`add_edge` overwrites the `edge_type` of the edge (A, B) and the `add_node`
for the file resource overwrites the `node_type` of node B. -/
def exKindOverwrite : List ProgramInfo :=
  [mkFact (some "A") "a.cob" 1 ["B"] ["B"], mkFact (some "B") "b.cob" 1 ["A"] []]

/-- Two self-loop programs: a graph with exactly two elementary cycles. -/
def exTwoLoops : List ProgramInfo :=
  [mkFact (some "A") "a.cob" 1 ["A"] [], mkFact (some "B") "b.cob" 1 ["B"] []]

/-- A single self-loop program. -/
def exSelfLoop : List ProgramInfo := [mkFact (some "A") "a.cob" 1 ["A"] []]

/-- A single fact calling the never-analyzed program X. -/
def exPhantom : List ProgramInfo := [mkFact (some "A") "a.cob" 2 ["X"] []]

/-- The same call fact ingested twice. -/
def exDupFacts : List ProgramInfo :=
  [mkFact (some "A") "a.cob" 1 ["B"] [], mkFact (some "A") "a.cob" 1 ["B"] []]

/-- A fact with program id A that only calls B. -/
def exCallOnly : ProgramInfo := mkFact (some "A") "a.cob" 1 ["B"] []

/-- A fact with the same program id A that only uses the file resource B. -/
def exFileOnly : ProgramInfo := mkFact (some "A") "a2.cob" 1 [] ["B"]

/-! ### Helper lemmas about the networkx node and edge updates -/

theorem keys_updNodeAttrs_of_mem {ns : List (String × NodeAttrs)} {i : String}
    {f : NodeAttrs → NodeAttrs} (h : ∃ p ∈ ns, p.1 = i) :
    (updNodeAttrs ns i f).map Prod.fst = ns.map Prod.fst := by
  unfold updNodeAttrs
  rw [if_pos h, List.map_map]
  apply List.map_congr_left
  intro p _
  by_cases hp : p.1 = i <;> simp [hp]

theorem keys_updNodeAttrs_of_not_mem {ns : List (String × NodeAttrs)}
    {i : String} {f : NodeAttrs → NodeAttrs} (h : ¬ ∃ p ∈ ns, p.1 = i) :
    (updNodeAttrs ns i f).map Prod.fst = ns.map Prod.fst ++ [i] := by
  unfold updNodeAttrs
  rw [if_neg h]
  simp

theorem mem_keys_updNodeAttrs {ns : List (String × NodeAttrs)} {i n : String}
    {f : NodeAttrs → NodeAttrs} :
    n ∈ (updNodeAttrs ns i f).map Prod.fst ↔ n ∈ ns.map Prod.fst ∨ n = i := by
  by_cases h : ∃ p ∈ ns, p.1 = i
  · rw [keys_updNodeAttrs_of_mem h]
    obtain ⟨p, hp, hpe⟩ := h
    constructor
    · exact Or.inl
    · rintro (hn | rfl)
      · exact hn
      · exact List.mem_map.mpr ⟨p, hp, hpe⟩
  · rw [keys_updNodeAttrs_of_not_mem h]
    simp

theorem pairs_updEdges_of_mem {es : List (String × String × String)}
    {u v t : String} (h : ∃ e ∈ es, e.1 = u ∧ e.2.1 = v) :
    (updEdges es u v t).map (fun e => (e.1, e.2.1)) =
      es.map (fun e => (e.1, e.2.1)) := by
  unfold updEdges
  rw [if_pos h, List.map_map]
  apply List.map_congr_left
  intro e _
  by_cases he : e.1 = u ∧ e.2.1 = v
  · simp only [if_pos he, Function.comp_apply]
    rw [he.1, he.2]
  · simp [he]

theorem pairs_updEdges_of_not_mem {es : List (String × String × String)}
    {u v t : String} (h : ¬ ∃ e ∈ es, e.1 = u ∧ e.2.1 = v) :
    (updEdges es u v t).map (fun e => (e.1, e.2.1)) =
      es.map (fun e => (e.1, e.2.1)) ++ [(u, v)] := by
  unfold updEdges
  rw [if_neg h]
  simp

theorem mem_pairs_updEdges {es : List (String × String × String)}
    {u v t : String} {q : String × String} :
    q ∈ (updEdges es u v t).map (fun e => (e.1, e.2.1)) ↔
      q ∈ es.map (fun e => (e.1, e.2.1)) ∨ q = (u, v) := by
  by_cases h : ∃ e ∈ es, e.1 = u ∧ e.2.1 = v
  · rw [pairs_updEdges_of_mem h]
    obtain ⟨e, he, he1, he2⟩ := h
    constructor
    · exact Or.inl
    · rintro (hn | rfl)
      · exact hn
      · exact List.mem_map.mpr ⟨e, he, by rw [he1, he2]⟩
  · rw [pairs_updEdges_of_not_mem h]
    simp

theorem nodup_pairs_updEdges {es : List (String × String × String)}
    {u v t : String}
    (h : (es.map (fun e => (e.1, e.2.1))).Nodup) :
    ((updEdges es u v t).map (fun e => (e.1, e.2.1))).Nodup := by
  by_cases hm : ∃ e ∈ es, e.1 = u ∧ e.2.1 = v
  · rw [pairs_updEdges_of_mem hm]; exact h
  · rw [pairs_updEdges_of_not_mem hm]
    rw [List.nodup_append]
    refine ⟨h, List.nodup_singleton _, ?_⟩
    intro q hq hq'
    simp only [List.mem_singleton] at hq'
    subst hq'
    obtain ⟨e, he, hee⟩ := List.mem_map.mp hq
    exact hm ⟨e, he, by rw [← Prod.mk.injEq]; exact hee⟩

theorem attrOf_map_upd {ns : List (String × NodeAttrs)} {i : String}
    {f : NodeAttrs → NodeAttrs} {id : String} :
    attrOf (ns.map (fun p => if p.1 = i then (p.1, f p.2) else p)) id =
      if id = i then (attrOf ns i).map f else attrOf ns id := by
  have hpred : ((fun p : String × NodeAttrs => decide (p.1 = id)) ∘
      (fun p : String × NodeAttrs => if p.1 = i then (p.1, f p.2) else p)) =
      fun p : String × NodeAttrs => decide (p.1 = id) := by
    funext p
    by_cases hp : p.1 = i <;> simp [hp]
  unfold attrOf
  rw [List.find?_map, hpred, Option.map_map]
  by_cases hid : id = i
  · subst hid
    cases hfind : List.find? (fun p : String × NodeAttrs => decide (p.1 = id)) ns with
    | none => simp
    | some p =>
      have hp : p.1 = id := by simpa using List.find?_some hfind
      simp [Function.comp, hp]
  · cases hfind : List.find? (fun p : String × NodeAttrs => decide (p.1 = id)) ns with
    | none => simp [hid]
    | some p =>
      have hp : p.1 = id := by simpa using List.find?_some hfind
      have hpn : ¬ p.1 = i := by rw [hp]; exact fun he => hid he
      simp [hid, Function.comp, hpn]

theorem attrOf_updNodeAttrs {ns : List (String × NodeAttrs)} {i : String}
    {f : NodeAttrs → NodeAttrs} {id : String} :
    attrOf (updNodeAttrs ns i f) id =
      if id = i then some (f ((attrOf ns i).getD {})) else attrOf ns id := by
  unfold updNodeAttrs
  by_cases h : ∃ p ∈ ns, p.1 = i
  · rw [if_pos h, attrOf_map_upd]
    by_cases hid : id = i
    · subst hid
      cases hfind : List.find? (fun p : String × NodeAttrs => decide (p.1 = id)) ns with
      | none =>
        exfalso
        rw [List.find?_eq_none] at hfind
        obtain ⟨p, hp, hpe⟩ := h
        exact hfind p hp (by simpa using hpe)
      | some p => simp [attrOf, hfind]
    · simp [hid]
  · rw [if_neg h]
    have hfind : List.find? (fun p : String × NodeAttrs => decide (p.1 = i)) ns =
        none := by
      rw [List.find?_eq_none]
      intro p hp hpe
      exact h ⟨p, hp, by simpa using hpe⟩
    by_cases hid : id = i
    · subst hid
      simp [attrOf, List.find?_append, List.find?_cons, hfind]
    · have hne : ¬ (i = id) := fun he => hid he.symm
      have h2 : List.find? (fun p : String × NodeAttrs => decide (p.1 = id))
          [(i, f {})] = none := by
        simp [List.find?_cons, hne]
      simp [attrOf, List.find?_append, h2, hid]

/-! ### Frame lemmas: which state components each operation keeps -/

theorem ingestCall_program_nodes (pid : String) (st : GenState) (c : String) :
    (ingestCall pid st c).program_nodes = st.program_nodes := rfl

theorem ingestCall_file_nodes (pid : String) (st : GenState) (c : String) :
    (ingestCall pid st c).file_nodes = st.file_nodes := rfl

theorem ingestCall_call_edges (pid : String) (st : GenState) (c : String) :
    (ingestCall pid st c).call_edges = st.call_edges ++ [(pid, c)] := rfl

theorem ingestCall_file_edges (pid : String) (st : GenState) (c : String) :
    (ingestCall pid st c).file_edges = st.file_edges := rfl

theorem ingestCall_analyzers (pid : String) (st : GenState) (c : String) :
    (ingestCall pid st c).analyzers = st.analyzers := rfl

theorem ingestFile_program_nodes (pid : String) (st : GenState) (x : String) :
    (ingestFile pid st x).program_nodes = st.program_nodes := rfl

theorem ingestFile_file_nodes (pid : String) (st : GenState) (x : String) :
    (ingestFile pid st x).file_nodes = insertSet st.file_nodes x := rfl

theorem ingestFile_call_edges (pid : String) (st : GenState) (x : String) :
    (ingestFile pid st x).call_edges = st.call_edges := rfl

theorem ingestFile_file_edges (pid : String) (st : GenState) (x : String) :
    (ingestFile pid st x).file_edges = st.file_edges ++ [(pid, x)] := rfl

theorem ingestFile_analyzers (pid : String) (st : GenState) (x : String) :
    (ingestFile pid st x).analyzers = st.analyzers := rfl

theorem foldl_ingestCall_program_nodes (pid : String) (cs : List String)
    (st : GenState) :
    (cs.foldl (ingestCall pid) st).program_nodes = st.program_nodes := by
  induction cs generalizing st with
  | nil => rfl
  | cons c cs ih => rw [List.foldl_cons, ih, ingestCall_program_nodes]

theorem foldl_ingestCall_file_nodes (pid : String) (cs : List String)
    (st : GenState) :
    (cs.foldl (ingestCall pid) st).file_nodes = st.file_nodes := by
  induction cs generalizing st with
  | nil => rfl
  | cons c cs ih => rw [List.foldl_cons, ih, ingestCall_file_nodes]

theorem foldl_ingestCall_call_edges (pid : String) (cs : List String)
    (st : GenState) :
    (cs.foldl (ingestCall pid) st).call_edges =
      st.call_edges ++ cs.map (fun c => (pid, c)) := by
  induction cs generalizing st with
  | nil => simp
  | cons c cs ih =>
    rw [List.foldl_cons, ih, ingestCall_call_edges, List.map_cons,
      List.append_assoc, List.singleton_append]

theorem foldl_ingestCall_file_edges (pid : String) (cs : List String)
    (st : GenState) :
    (cs.foldl (ingestCall pid) st).file_edges = st.file_edges := by
  induction cs generalizing st with
  | nil => rfl
  | cons c cs ih => rw [List.foldl_cons, ih, ingestCall_file_edges]

theorem foldl_ingestCall_analyzers (pid : String) (cs : List String)
    (st : GenState) :
    (cs.foldl (ingestCall pid) st).analyzers = st.analyzers := by
  induction cs generalizing st with
  | nil => rfl
  | cons c cs ih => rw [List.foldl_cons, ih, ingestCall_analyzers]

theorem foldl_ingestFile_program_nodes (pid : String) (xs : List String)
    (st : GenState) :
    (xs.foldl (ingestFile pid) st).program_nodes = st.program_nodes := by
  induction xs generalizing st with
  | nil => rfl
  | cons x xs ih => rw [List.foldl_cons, ih, ingestFile_program_nodes]

theorem foldl_ingestFile_call_edges (pid : String) (xs : List String)
    (st : GenState) :
    (xs.foldl (ingestFile pid) st).call_edges = st.call_edges := by
  induction xs generalizing st with
  | nil => rfl
  | cons x xs ih => rw [List.foldl_cons, ih, ingestFile_call_edges]

theorem foldl_ingestFile_file_edges (pid : String) (xs : List String)
    (st : GenState) :
    (xs.foldl (ingestFile pid) st).file_edges =
      st.file_edges ++ xs.map (fun x => (pid, x)) := by
  induction xs generalizing st with
  | nil => simp
  | cons x xs ih =>
    rw [List.foldl_cons, ih, ingestFile_file_edges, List.map_cons,
      List.append_assoc, List.singleton_append]

theorem foldl_ingestFile_analyzers (pid : String) (xs : List String)
    (st : GenState) :
    (xs.foldl (ingestFile pid) st).analyzers = st.analyzers := by
  induction xs generalizing st with
  | nil => rfl
  | cons x xs ih => rw [List.foldl_cons, ih, ingestFile_analyzers]

theorem ingestFact_program_nodes (st : GenState) (f : ProgramInfo) :
    (ingestFact st f).program_nodes = insertSet st.program_nodes (progKey f) := by
  unfold ingestFact
  rw [foldl_ingestFile_program_nodes, foldl_ingestCall_program_nodes]
  rfl

theorem ingestFact_call_edges (st : GenState) (f : ProgramInfo) :
    (ingestFact st f).call_edges =
      st.call_edges ++ f.calls.map (fun c => (progKey f, c)) := by
  unfold ingestFact
  rw [foldl_ingestFile_call_edges, foldl_ingestCall_call_edges]
  rfl

theorem ingestFact_file_edges (st : GenState) (f : ProgramInfo) :
    (ingestFact st f).file_edges =
      st.file_edges ++ f.files_used.map (fun x => (progKey f, x)) := by
  unfold ingestFact
  rw [foldl_ingestFile_file_edges, foldl_ingestCall_file_edges]
  rfl

theorem ingestFact_analyzers (st : GenState) (f : ProgramInfo) :
    (ingestFact st f).analyzers = st.analyzers := by
  unfold ingestFact
  rw [foldl_ingestFile_analyzers, foldl_ingestCall_analyzers]
  rfl

theorem foldl_ingestFact_analyzers (as : List ProgramInfo) (st : GenState) :
    (as.foldl ingestFact st).analyzers = st.analyzers := by
  induction as generalizing st with
  | nil => rfl
  | cons f as ih => rw [List.foldl_cons, ih, ingestFact_analyzers]

theorem foldl_ingestFact_call_edges (as : List ProgramInfo) (st : GenState) :
    (as.foldl ingestFact st).call_edges =
      st.call_edges ++ as.flatMap (fun f => f.calls.map (fun c => (progKey f, c))) := by
  induction as generalizing st with
  | nil => simp
  | cons f as ih =>
    rw [List.foldl_cons, ih, ingestFact_call_edges, List.flatMap_cons,
      List.append_assoc]

theorem foldl_ingestFact_file_edges (as : List ProgramInfo) (st : GenState) :
    (as.foldl ingestFact st).file_edges =
      st.file_edges ++
        as.flatMap (fun f => f.files_used.map (fun x => (progKey f, x))) := by
  induction as generalizing st with
  | nil => simp
  | cons f as ih =>
    rw [List.foldl_cons, ih, ingestFact_file_edges, List.flatMap_cons,
      List.append_assoc]

theorem mem_insertSet {l : List String} {x y : String} :
    y ∈ insertSet l x ↔ y ∈ l ∨ y = x := by
  unfold insertSet
  by_cases h : x ∈ l
  · rw [if_pos h]
    constructor
    · exact Or.inl
    · rintro (hy | rfl) <;> [exact hy; exact h]
  · rw [if_neg h]
    simp

theorem nodup_insertSet {l : List String} {x : String} (h : l.Nodup) :
    (insertSet l x).Nodup := by
  unfold insertSet
  by_cases hm : x ∈ l
  · rwa [if_pos hm]
  · rw [if_neg hm, List.nodup_append]
    refine ⟨h, List.nodup_singleton _, ?_⟩
    intro a ha hb
    rw [List.mem_singleton] at hb
    subst hb
    exact hm ha

theorem foldl_ingestFact_program_nodes_mem (as : List ProgramInfo)
    (st : GenState) (x : String) :
    x ∈ (as.foldl ingestFact st).program_nodes ↔
      x ∈ st.program_nodes ∨ ∃ f ∈ as, x = progKey f := by
  induction as generalizing st with
  | nil => simp
  | cons f as ih =>
    rw [List.foldl_cons, ih, ingestFact_program_nodes, mem_insertSet]
    simp only [List.mem_cons]
    constructor
    · rintro ((h | h) | ⟨g, hg, he⟩)
      · exact Or.inl h
      · exact Or.inr ⟨f, Or.inl rfl, h⟩
      · exact Or.inr ⟨g, Or.inr hg, he⟩
    · rintro (h | ⟨g, (rfl | hg), he⟩)
      · exact Or.inl (Or.inl h)
      · exact Or.inl (Or.inr he)
      · exact Or.inr ⟨g, hg, he⟩

theorem foldl_ingestFact_program_nodes_nodup (as : List ProgramInfo)
    (st : GenState) (h : st.program_nodes.Nodup) :
    (as.foldl ingestFact st).program_nodes.Nodup := by
  induction as generalizing st with
  | nil => exact h
  | cons f as ih =>
    rw [List.foldl_cons]
    apply ih
    rw [ingestFact_program_nodes]
    exact nodup_insertSet h

/-! ### Node and edge membership through the builder operations -/

theorem ingestCall_graph_nodes (pid : String) (st : GenState) (c : String) :
    (ingestCall pid st c).graph_nodes =
      updNodeAttrs (updNodeAttrs (updNodeAttrs st.graph_nodes c setProgramKind)
        pid (fun a => a)) c (fun a => a) := rfl

theorem ingestCall_graph_edges (pid : String) (st : GenState) (c : String) :
    (ingestCall pid st c).graph_edges = updEdges st.graph_edges pid c "calls" :=
  rfl

theorem ingestFile_graph_nodes (pid : String) (st : GenState) (x : String) :
    (ingestFile pid st x).graph_nodes =
      updNodeAttrs (updNodeAttrs (updNodeAttrs st.graph_nodes x setFileKind)
        pid (fun a => a)) x (fun a => a) := rfl

theorem ingestFile_graph_edges (pid : String) (st : GenState) (x : String) :
    (ingestFile pid st x).graph_edges = updEdges st.graph_edges pid x "uses" :=
  rfl

theorem mem_nodeIds_addGraphNode {st : GenState} {id n : String}
    {f : NodeAttrs → NodeAttrs} :
    n ∈ nodeIds (addGraphNode st id f) ↔ n ∈ nodeIds st ∨ n = id :=
  mem_keys_updNodeAttrs

theorem mem_nodeIds_ingestCall {pid : String} {st : GenState} {c n : String} :
    n ∈ nodeIds (ingestCall pid st c) ↔ n ∈ nodeIds st ∨ n = c ∨ n = pid := by
  unfold nodeIds
  rw [ingestCall_graph_nodes, mem_keys_updNodeAttrs, mem_keys_updNodeAttrs,
    mem_keys_updNodeAttrs]
  tauto

theorem mem_nodeIds_ingestFile {pid : String} {st : GenState} {x n : String} :
    n ∈ nodeIds (ingestFile pid st x) ↔ n ∈ nodeIds st ∨ n = x ∨ n = pid := by
  unfold nodeIds
  rw [ingestFile_graph_nodes, mem_keys_updNodeAttrs, mem_keys_updNodeAttrs,
    mem_keys_updNodeAttrs]
  tauto

theorem mem_nodeIds_foldl_ingestCall {pid : String} {cs : List String}
    {st : GenState} {n : String} (hp : pid ∈ nodeIds st) :
    n ∈ nodeIds (cs.foldl (ingestCall pid) st) ↔ n ∈ nodeIds st ∨ n ∈ cs := by
  induction cs generalizing st with
  | nil => simp
  | cons c cs ih =>
    rw [List.foldl_cons]
    have hp2 : pid ∈ nodeIds (ingestCall pid st c) :=
      mem_nodeIds_ingestCall.mpr (Or.inr (Or.inr rfl))
    rw [ih hp2, mem_nodeIds_ingestCall]
    simp only [List.mem_cons]
    constructor
    · rintro ((h | rfl | rfl) | h)
      · exact Or.inl h
      · exact Or.inr (Or.inl rfl)
      · exact Or.inl hp
      · exact Or.inr (Or.inr h)
    · rintro (h | rfl | h)
      · exact Or.inl (Or.inl h)
      · exact Or.inl (Or.inr (Or.inl rfl))
      · exact Or.inr h

theorem mem_nodeIds_foldl_ingestFile {pid : String} {xs : List String}
    {st : GenState} {n : String} (hp : pid ∈ nodeIds st) :
    n ∈ nodeIds (xs.foldl (ingestFile pid) st) ↔ n ∈ nodeIds st ∨ n ∈ xs := by
  induction xs generalizing st with
  | nil => simp
  | cons x xs ih =>
    rw [List.foldl_cons]
    have hp2 : pid ∈ nodeIds (ingestFile pid st x) :=
      mem_nodeIds_ingestFile.mpr (Or.inr (Or.inr rfl))
    rw [ih hp2, mem_nodeIds_ingestFile]
    simp only [List.mem_cons]
    constructor
    · rintro ((h | rfl | rfl) | h)
      · exact Or.inl h
      · exact Or.inr (Or.inl rfl)
      · exact Or.inl hp
      · exact Or.inr (Or.inr h)
    · rintro (h | rfl | h)
      · exact Or.inl (Or.inl h)
      · exact Or.inl (Or.inr (Or.inl rfl))
      · exact Or.inr h

theorem mem_nodeIds_ingestFact {st : GenState} {f : ProgramInfo} {n : String} :
    n ∈ nodeIds (ingestFact st f) ↔
      n ∈ nodeIds st ∨ n = progKey f ∨ n ∈ f.calls ∨ n ∈ f.files_used := by
  unfold ingestFact
  have hp2 : progKey f ∈ nodeIds (addGraphNode
      { st with program_nodes := insertSet st.program_nodes (progKey f) }
      (progKey f) (setProgramFull f)) :=
    mem_nodeIds_addGraphNode.mpr (Or.inr rfl)
  have hp3 : progKey f ∈ nodeIds (f.calls.foldl (ingestCall (progKey f))
      (addGraphNode
        { st with program_nodes := insertSet st.program_nodes (progKey f) }
        (progKey f) (setProgramFull f))) :=
    (mem_nodeIds_foldl_ingestCall hp2).mpr (Or.inl hp2)
  rw [mem_nodeIds_foldl_ingestFile hp3, mem_nodeIds_foldl_ingestCall hp2,
    mem_nodeIds_addGraphNode]
  have hbase : n ∈ nodeIds { st with
      program_nodes := insertSet st.program_nodes (progKey f) } ↔
      n ∈ nodeIds st := Iff.rfl
  rw [hbase]
  tauto

theorem mem_nodeIds_foldl_ingestFact {as : List ProgramInfo} {st : GenState}
    {n : String} :
    n ∈ nodeIds (as.foldl ingestFact st) ↔
      n ∈ nodeIds st ∨
        ∃ f ∈ as, n = progKey f ∨ n ∈ f.calls ∨ n ∈ f.files_used := by
  induction as generalizing st with
  | nil => simp
  | cons f as ih =>
    rw [List.foldl_cons, ih, mem_nodeIds_ingestFact]
    simp only [List.mem_cons]
    constructor
    · rintro ((h | h) | ⟨g, hg, hh⟩)
      · exact Or.inl h
      · exact Or.inr ⟨f, Or.inl rfl, h⟩
      · exact Or.inr ⟨g, Or.inr hg, hh⟩
    · rintro (h | ⟨g, (rfl | hg), hh⟩)
      · exact Or.inl (Or.inl h)
      · exact Or.inl (Or.inr hh)
      · exact Or.inr ⟨g, hg, hh⟩

theorem mem_edgePairs_ingestCall {pid : String} {st : GenState} {c : String}
    {q : String × String} :
    q ∈ edgePairs (ingestCall pid st c) ↔ q ∈ edgePairs st ∨ q = (pid, c) := by
  unfold edgePairs
  rw [ingestCall_graph_edges]
  exact mem_pairs_updEdges

theorem mem_edgePairs_ingestFile {pid : String} {st : GenState} {x : String}
    {q : String × String} :
    q ∈ edgePairs (ingestFile pid st x) ↔ q ∈ edgePairs st ∨ q = (pid, x) := by
  unfold edgePairs
  rw [ingestFile_graph_edges]
  exact mem_pairs_updEdges

theorem mem_edgePairs_foldl_ingestCall {pid : String} {cs : List String}
    {st : GenState} {q : String × String} :
    q ∈ edgePairs (cs.foldl (ingestCall pid) st) ↔
      q ∈ edgePairs st ∨ ∃ c ∈ cs, q = (pid, c) := by
  induction cs generalizing st with
  | nil => simp
  | cons c cs ih =>
    rw [List.foldl_cons, ih, mem_edgePairs_ingestCall]
    simp only [List.mem_cons]
    constructor
    · rintro ((h | rfl) | ⟨x, hx, rfl⟩)
      · exact Or.inl h
      · exact Or.inr ⟨c, Or.inl rfl, rfl⟩
      · exact Or.inr ⟨x, Or.inr hx, rfl⟩
    · rintro (h | ⟨x, (rfl | hx), rfl⟩)
      · exact Or.inl (Or.inl h)
      · exact Or.inl (Or.inr rfl)
      · exact Or.inr ⟨x, hx, rfl⟩

theorem mem_edgePairs_foldl_ingestFile {pid : String} {xs : List String}
    {st : GenState} {q : String × String} :
    q ∈ edgePairs (xs.foldl (ingestFile pid) st) ↔
      q ∈ edgePairs st ∨ ∃ x ∈ xs, q = (pid, x) := by
  induction xs generalizing st with
  | nil => simp
  | cons x xs ih =>
    rw [List.foldl_cons, ih, mem_edgePairs_ingestFile]
    simp only [List.mem_cons]
    constructor
    · rintro ((h | rfl) | ⟨y, hy, rfl⟩)
      · exact Or.inl h
      · exact Or.inr ⟨x, Or.inl rfl, rfl⟩
      · exact Or.inr ⟨y, Or.inr hy, rfl⟩
    · rintro (h | ⟨y, (rfl | hy), rfl⟩)
      · exact Or.inl (Or.inl h)
      · exact Or.inl (Or.inr rfl)
      · exact Or.inr ⟨y, hy, rfl⟩

theorem mem_edgePairs_ingestFact {st : GenState} {f : ProgramInfo}
    {q : String × String} :
    q ∈ edgePairs (ingestFact st f) ↔
      q ∈ edgePairs st ∨ (∃ c ∈ f.calls, q = (progKey f, c)) ∨
        ∃ x ∈ f.files_used, q = (progKey f, x) := by
  unfold ingestFact
  rw [mem_edgePairs_foldl_ingestFile, mem_edgePairs_foldl_ingestCall]
  have hbase : q ∈ edgePairs (addGraphNode
      { st with program_nodes := insertSet st.program_nodes (progKey f) }
      (progKey f) (setProgramFull f)) ↔ q ∈ edgePairs st := Iff.rfl
  rw [hbase]
  exact or_assoc

theorem mem_edgePairs_foldl_ingestFact {as : List ProgramInfo} {st : GenState}
    {q : String × String} :
    q ∈ edgePairs (as.foldl ingestFact st) ↔
      q ∈ edgePairs st ∨
        ∃ f ∈ as, (∃ c ∈ f.calls, q = (progKey f, c)) ∨
          ∃ x ∈ f.files_used, q = (progKey f, x) := by
  induction as generalizing st with
  | nil => simp
  | cons f as ih =>
    rw [List.foldl_cons, ih, mem_edgePairs_ingestFact]
    simp only [List.mem_cons]
    constructor
    · rintro ((h | h) | ⟨g, hg, hh⟩)
      · exact Or.inl h
      · exact Or.inr ⟨f, Or.inl rfl, h⟩
      · exact Or.inr ⟨g, Or.inr hg, hh⟩
    · rintro (h | ⟨g, (rfl | hg), hh⟩)
      · exact Or.inl (Or.inl h)
      · exact Or.inl (Or.inr hh)
      · exact Or.inr ⟨g, hg, hh⟩

theorem nodup_edgePairs_ingestCall {pid : String} {st : GenState} {c : String}
    (h : (edgePairs st).Nodup) : (edgePairs (ingestCall pid st c)).Nodup := by
  unfold edgePairs
  rw [ingestCall_graph_edges]
  exact nodup_pairs_updEdges h

theorem nodup_edgePairs_ingestFile {pid : String} {st : GenState} {x : String}
    (h : (edgePairs st).Nodup) : (edgePairs (ingestFile pid st x)).Nodup := by
  unfold edgePairs
  rw [ingestFile_graph_edges]
  exact nodup_pairs_updEdges h

theorem nodup_edgePairs_foldl_ingestCall {pid : String} {cs : List String}
    {st : GenState} (h : (edgePairs st).Nodup) :
    (edgePairs (cs.foldl (ingestCall pid) st)).Nodup := by
  induction cs generalizing st with
  | nil => exact h
  | cons c cs ih =>
    rw [List.foldl_cons]
    exact ih (nodup_edgePairs_ingestCall h)

theorem nodup_edgePairs_foldl_ingestFile {pid : String} {xs : List String}
    {st : GenState} (h : (edgePairs st).Nodup) :
    (edgePairs (xs.foldl (ingestFile pid) st)).Nodup := by
  induction xs generalizing st with
  | nil => exact h
  | cons x xs ih =>
    rw [List.foldl_cons]
    exact ih (nodup_edgePairs_ingestFile h)

theorem nodup_edgePairs_ingestFact {st : GenState} {f : ProgramInfo}
    (h : (edgePairs st).Nodup) : (edgePairs (ingestFact st f)).Nodup := by
  unfold ingestFact
  exact nodup_edgePairs_foldl_ingestFile (nodup_edgePairs_foldl_ingestCall h)

theorem nodup_edgePairs_foldl_ingestFact {as : List ProgramInfo}
    {st : GenState} (h : (edgePairs st).Nodup) :
    (edgePairs (as.foldl ingestFact st)).Nodup := by
  induction as generalizing st with
  | nil => exact h
  | cons f as ih =>
    rw [List.foldl_cons]
    exact ih (nodup_edgePairs_ingestFact h)

/-! ### Preservation of the loc and file attributes -/

theorem locFile_updNodeAttrs {ns : List (String × NodeAttrs)} {i id : String}
    {f : NodeAttrs → NodeAttrs}
    (hf : ∀ a, (f a).loc = a.loc ∧ (f a).file = a.file)
    {a : NodeAttrs} (h : attrOf ns id = some a) :
    ∃ b, attrOf (updNodeAttrs ns i f) id = some b ∧
      b.loc = a.loc ∧ b.file = a.file := by
  rw [attrOf_updNodeAttrs]
  by_cases hid : id = i
  · subst hid
    rw [if_pos rfl, h]
    exact ⟨f a, rfl, (hf a).1, (hf a).2⟩
  · rw [if_neg hid]
    exact ⟨a, h, rfl, rfl⟩

theorem locFile_ingestCall (pid : String) {st : GenState} (c : String)
    {id : String} {a : NodeAttrs} (h : nodeAttr st id = some a) :
    ∃ b, nodeAttr (ingestCall pid st c) id = some b ∧
      b.loc = a.loc ∧ b.file = a.file := by
  unfold nodeAttr at h ⊢
  rw [ingestCall_graph_nodes]
  obtain ⟨b1, hb1, hl1, hf1⟩ :=
    locFile_updNodeAttrs (f := setProgramKind) (fun a => ⟨rfl, rfl⟩) h
  obtain ⟨b2, hb2, hl2, hf2⟩ :=
    locFile_updNodeAttrs (f := fun a => a) (fun a => ⟨rfl, rfl⟩) hb1
  obtain ⟨b3, hb3, hl3, hf3⟩ :=
    locFile_updNodeAttrs (f := fun a => a) (fun a => ⟨rfl, rfl⟩) hb2
  exact ⟨b3, hb3, by rw [hl3, hl2, hl1], by rw [hf3, hf2, hf1]⟩

theorem locFile_ingestFile (pid : String) {st : GenState} (x : String)
    {id : String} {a : NodeAttrs} (h : nodeAttr st id = some a) :
    ∃ b, nodeAttr (ingestFile pid st x) id = some b ∧
      b.loc = a.loc ∧ b.file = a.file := by
  unfold nodeAttr at h ⊢
  rw [ingestFile_graph_nodes]
  obtain ⟨b1, hb1, hl1, hf1⟩ :=
    locFile_updNodeAttrs (f := setFileKind) (fun a => ⟨rfl, rfl⟩) h
  obtain ⟨b2, hb2, hl2, hf2⟩ :=
    locFile_updNodeAttrs (f := fun a => a) (fun a => ⟨rfl, rfl⟩) hb1
  obtain ⟨b3, hb3, hl3, hf3⟩ :=
    locFile_updNodeAttrs (f := fun a => a) (fun a => ⟨rfl, rfl⟩) hb2
  exact ⟨b3, hb3, by rw [hl3, hl2, hl1], by rw [hf3, hf2, hf1]⟩

theorem locFile_foldl_ingestCall {pid : String} {cs : List String}
    {st : GenState} {id : String} {a : NodeAttrs}
    (h : nodeAttr st id = some a) :
    ∃ b, nodeAttr (cs.foldl (ingestCall pid) st) id = some b ∧
      b.loc = a.loc ∧ b.file = a.file := by
  induction cs generalizing st a with
  | nil => exact ⟨a, h, rfl, rfl⟩
  | cons c cs ih =>
    rw [List.foldl_cons]
    obtain ⟨b, hb, hl, hf⟩ := locFile_ingestCall pid c h
    obtain ⟨b2, hb2, hl2, hf2⟩ := ih hb
    exact ⟨b2, hb2, by rw [hl2, hl], by rw [hf2, hf]⟩

theorem locFile_foldl_ingestFile {pid : String} {xs : List String}
    {st : GenState} {id : String} {a : NodeAttrs}
    (h : nodeAttr st id = some a) :
    ∃ b, nodeAttr (xs.foldl (ingestFile pid) st) id = some b ∧
      b.loc = a.loc ∧ b.file = a.file := by
  induction xs generalizing st a with
  | nil => exact ⟨a, h, rfl, rfl⟩
  | cons x xs ih =>
    rw [List.foldl_cons]
    obtain ⟨b, hb, hl, hf⟩ := locFile_ingestFile pid x h
    obtain ⟨b2, hb2, hl2, hf2⟩ := ih hb
    exact ⟨b2, hb2, by rw [hl2, hl], by rw [hf2, hf]⟩

theorem locFile_ingestFact_self (st : GenState) (f : ProgramInfo) :
    ∃ b, nodeAttr (ingestFact st f) (progKey f) = some b ∧
      b.loc = some f.lines_of_code ∧ b.file = some f.file_name := by
  unfold ingestFact
  have h0 : nodeAttr (addGraphNode
      { st with program_nodes := insertSet st.program_nodes (progKey f) }
      (progKey f) (setProgramFull f)) (progKey f) =
      some (setProgramFull f
        ((attrOf st.graph_nodes (progKey f)).getD {})) := by
    unfold nodeAttr addGraphNode
    rw [attrOf_updNodeAttrs, if_pos rfl]
  obtain ⟨b1, hb1, hl1, hf1⟩ := locFile_foldl_ingestCall h0
  obtain ⟨b2, hb2, hl2, hf2⟩ := locFile_foldl_ingestFile hb1
  refine ⟨b2, hb2, ?_, ?_⟩
  · rw [hl2, hl1]; rfl
  · rw [hf2, hf1]; rfl

/-! ### Build, lazy build and the analyzers field -/

theorem build_graph_analyzers (st : GenState) :
    (build_graph st).analyzers = st.analyzers :=
  foldl_ingestFact_analyzers st.analyzers st

theorem build_graph_of_analyzers_nil {st : GenState} (h : st.analyzers = []) :
    build_graph st = st := by
  unfold build_graph
  rw [h]
  rfl

theorem build_graph_nodes_ne_nil {st : GenState} (h : st.analyzers ≠ []) :
    (build_graph st).graph_nodes ≠ [] := by
  obtain ⟨f, rest, hfr⟩ := List.exists_cons_of_ne_nil h
  have hm : progKey f ∈ nodeIds (build_graph st) := by
    unfold build_graph
    rw [mem_nodeIds_foldl_ingestFact]
    exact Or.inr ⟨f, by rw [hfr]; exact List.mem_cons_self _ _, Or.inl rfl⟩
  intro hnil
  unfold nodeIds at hm
  rw [hnil] at hm
  simp at hm

theorem buildIfEmpty_idem (st : GenState) :
    buildIfEmpty (buildIfEmpty st) = buildIfEmpty st := by
  by_cases h : st.graph_nodes = []
  · by_cases ha : st.analyzers = []
    · have hb : build_graph st = st := build_graph_of_analyzers_nil ha
      unfold buildIfEmpty
      rw [if_pos h, hb, if_pos h, hb]
    · have hne : (build_graph st).graph_nodes ≠ [] := build_graph_nodes_ne_nil ha
      unfold buildIfEmpty
      rw [if_pos h, if_neg hne]
  · unfold buildIfEmpty
    rw [if_neg h, if_neg h]

/-! ### Correctness of the elementary-cycle enumeration -/

theorem sublist_eq_filter_of_nodup {s ns : List String} (h : s.Sublist ns)
    (hn : ns.Nodup) : s = ns.filter (fun x => decide (x ∈ s)) := by
  induction h with
  | slnil => rfl
  | @cons s ns a h ih =>
    rw [List.nodup_cons] at hn
    have has : a ∉ s := fun hs => hn.1 (h.subset hs)
    rw [List.filter_cons, if_neg (by simpa using has)]
    exact ih hn.2
  | @cons₂ s ns a h ih =>
    rw [List.nodup_cons] at hn
    rw [List.filter_cons, if_pos (by simp)]
    have hcong : ns.filter (fun x => decide (x ∈ a :: s)) =
        ns.filter (fun x => decide (x ∈ s)) := by
      apply List.filter_congr
      intro x hx
      have hxa : ¬ x = a := fun he => hn.1 (he ▸ hx)
      simp [List.mem_cons, hxa]
    rw [hcong, ← ih hn.2]

theorem sublist_perm_eq {s1 s2 ns : List String} (h1 : s1.Sublist ns)
    (h2 : s2.Sublist ns) (hn : ns.Nodup) (hp : s1.Perm s2) : s1 = s2 := by
  rw [sublist_eq_filter_of_nodup h1 hn, sublist_eq_filter_of_nodup h2 hn]
  apply List.filter_congr
  intro x _
  rw [decide_eq_decide]
  exact hp.mem_iff

theorem mem_sublists_flatMap_permutations {ns : List String}
    {c : List String} :
    c ∈ ns.sublists.flatMap List.permutations' ↔
      ∃ s, s.Sublist ns ∧ c.Perm s := by
  rw [List.mem_flatMap]
  constructor
  · rintro ⟨s, hs, hc⟩
    exact ⟨s, List.mem_sublists.mp hs, List.mem_permutations'.mp hc⟩
  · rintro ⟨s, hs, hc⟩
    exact ⟨s, List.mem_sublists.mpr hs, List.mem_permutations'.mpr hc⟩

theorem nodup_sublists_flatMap_permutations {ns : List String}
    (h : ns.Nodup) : (ns.sublists.flatMap List.permutations').Nodup := by
  rw [List.nodup_flatMap]
  constructor
  · intro s hs
    have hsd : s.Nodup := List.Nodup.sublist (List.mem_sublists.mp hs) h
    exact (List.permutations_perm_permutations' s).nodup_iff.mp
      (List.nodup_permutations s hsd)
  · have hnd : ns.sublists.Nodup := List.nodup_sublists.mpr h
    apply List.Pairwise.imp_of_mem ?_ hnd
    intro s1 s2 hs1 hs2 hne
    intro c hc1 hc2
    exact hne (sublist_perm_eq (List.mem_sublists.mp hs1)
      (List.mem_sublists.mp hs2) h
      ((List.mem_permutations'.mp hc1).symm.trans
        (List.mem_permutations'.mp hc2)))

theorem mem_simpleCycles {ns : List String} {es : List (String × String)}
    {c : List String} :
    c ∈ simpleCycles ns es ↔
      IsElemCycle ns.dedup es c ∧ canonList ns.dedup c = true := by
  unfold simpleCycles
  rw [List.mem_filter]
  constructor
  · rintro ⟨_, hpred⟩
    rw [Bool.and_eq_true, decide_eq_true_eq] at hpred
    exact hpred
  · rintro ⟨hcyc, hcanon⟩
    refine ⟨?_, ?_⟩
    · rw [mem_sublists_flatMap_permutations]
      obtain ⟨l, hl, hsub⟩ := List.Nodup.subperm hcyc.2.1 (fun x hx => hcyc.2.2.1 x hx)
      exact ⟨l, hsub, hl.symm⟩
    · rw [Bool.and_eq_true, decide_eq_true_eq]
      exact ⟨hcyc, hcanon⟩

theorem nodup_simpleCycles (ns : List String) (es : List (String × String)) :
    (simpleCycles ns es).Nodup := by
  unfold simpleCycles
  exact List.Nodup.filter _
    (nodup_sublists_flatMap_permutations (List.nodup_dedup ns))

theorem cyclePairs_rotate (c : List String) (n : Nat) :
    cyclePairs (c.rotate n) = (cyclePairs c).rotate n := by
  show (c.rotate n).zip ((c.rotate n).rotate 1) = (c.zip (c.rotate 1)).rotate n
  rw [List.rotate_rotate]
  rw [show c.zip (c.rotate 1) = List.zipWith Prod.mk c (c.rotate 1) from rfl,
    show (c.rotate n).zip (c.rotate (n + 1)) =
      List.zipWith Prod.mk (c.rotate n) (c.rotate (n + 1)) from rfl,
    List.zipWith_rotate_distrib Prod.mk c (c.rotate 1) n
      (by rw [List.length_rotate]),
    List.rotate_rotate, Nat.add_comm 1 n]

theorem mem_cyclePairs_rotate {c : List String} {n : Nat}
    {p : String × String} :
    p ∈ cyclePairs (c.rotate n) ↔ p ∈ cyclePairs c := by
  rw [cyclePairs_rotate]
  exact List.mem_rotate

theorem isElemCycle_rotate {ns : List String} {es : List (String × String)}
    {c : List String} {n : Nat} :
    IsElemCycle ns es (c.rotate n) ↔ IsElemCycle ns es c := by
  unfold IsElemCycle
  rw [ne_eq, List.rotate_eq_nil_iff, ← ne_eq, List.nodup_rotate]
  constructor
  · rintro ⟨h1, h2, h3, h4⟩
    exact ⟨h1, h2, fun x hx => h3 x (List.mem_rotate.mpr hx),
      fun p hp => h4 p (mem_cyclePairs_rotate.mpr hp)⟩
  · rintro ⟨h1, h2, h3, h4⟩
    exact ⟨h1, h2, fun x hx => h3 x (List.mem_rotate.mp hx),
      fun p hp => h4 p (mem_cyclePairs_rotate.mp hp)⟩

theorem exists_min_indexOf {c : List String} (h : c ≠ [])
    (nsd : List String) :
    ∃ m ∈ c, ∀ x ∈ c, nsd.indexOf m ≤ nsd.indexOf x := by
  cases harg : c.argmin (fun x => nsd.indexOf x) with
  | none => exact absurd (List.argmin_eq_none.mp harg) h
  | some m =>
    exact ⟨m, List.argmin_mem harg, fun x hx => List.le_of_mem_argmin hx harg⟩

theorem exists_canonList_rotate (nsd : List String) {c : List String}
    (h0 : c ≠ []) :
    ∃ k, canonList nsd (c.rotate k) = true := by
  obtain ⟨m, hm, hmin⟩ := exists_min_indexOf h0 nsd
  refine ⟨c.indexOf m, ?_⟩
  have hlen : c.indexOf m < c.length := List.indexOf_lt_length.mpr hm
  have hpos : 0 < c.length := List.length_pos.mpr h0
  have hne : c.rotate (c.indexOf m) ≠ [] := by
    rw [ne_eq, List.rotate_eq_nil_iff]
    exact h0
  obtain ⟨h, t, he⟩ := List.exists_cons_of_ne_nil hne
  have hhead : h = m := by
    have hg := List.getElem?_rotate (l := c) (n := c.indexOf m) hpos
    rw [he, Nat.zero_add, Nat.mod_eq_of_lt hlen, List.getElem?_cons_zero,
      List.getElem?_eq_getElem hlen, List.getElem_indexOf hlen] at hg
    exact Option.some.inj hg
  rw [he]
  show (h :: t).all (fun x => nsd.indexOf h ≤ nsd.indexOf x) = true
  rw [List.all_eq_true]
  intro x hx
  have hxc : x ∈ c := List.mem_rotate.mp (he ▸ hx)
  rw [decide_eq_true_eq, hhead]
  exact hmin x hxc

theorem canonList_rotate_eq_self {nsd c : List String} {n : Nat}
    (hn : c.Nodup) (hmem : ∀ x ∈ c, x ∈ nsd)
    (hc : canonList nsd c = true) (hd : canonList nsd (c.rotate n) = true) :
    c.rotate n = c := by
  have h0 : c ≠ [] := by
    intro he
    rw [he] at hc
    simp [canonList] at hc
  obtain ⟨h1, t1, he1⟩ := List.exists_cons_of_ne_nil h0
  have hLpos : 0 < c.length := by rw [he1]; simp
  have hkL : n % c.length < c.length := Nat.mod_lt _ hLpos
  have hrot : c.rotate n = c.rotate (n % c.length) := (List.rotate_mod c n).symm
  have hne2 : c.rotate (n % c.length) ≠ [] := by
    rw [ne_eq, List.rotate_eq_nil_iff]
    exact h0
  obtain ⟨h2, t2, he2⟩ := List.exists_cons_of_ne_nil hne2
  have hh2 : getElem? c (n % c.length) = some h2 := by
    have hg := List.getElem?_rotate (l := c) (n := n % c.length) hLpos
    rw [he2, Nat.zero_add, Nat.mod_eq_of_lt hkL, List.getElem?_cons_zero] at hg
    exact hg.symm
  have hh1 : getElem? c 0 = some h1 := by
    rw [he1]
    exact List.getElem?_cons_zero
  have hm1 : h1 ∈ c := by rw [he1]; exact List.mem_cons_self _ _
  have hm2 : h2 ∈ c := by
    have hmr : h2 ∈ c.rotate (n % c.length) := by
      rw [he2]
      exact List.mem_cons_self _ _
    exact List.mem_rotate.mp hmr
  have hall1 : ∀ x ∈ c, nsd.indexOf h1 ≤ nsd.indexOf x := by
    intro x hx
    rw [he1] at hc
    have := List.all_eq_true.mp hc x (he1 ▸ hx)
    exact decide_eq_true_eq.mp this
  have hall2 : ∀ x ∈ c.rotate (n % c.length),
      nsd.indexOf h2 ≤ nsd.indexOf x := by
    intro x hx
    rw [hrot, he2] at hd
    have := List.all_eq_true.mp hd x (he2 ▸ hx)
    exact decide_eq_true_eq.mp this
  have hle1 : nsd.indexOf h1 ≤ nsd.indexOf h2 := hall1 h2 hm2
  have hle2 : nsd.indexOf h2 ≤ nsd.indexOf h1 :=
    hall2 h1 (List.mem_rotate.mpr hm1)
  have hheq : h1 = h2 :=
    (List.indexOf_inj (hmem h1 hm1) (hmem h2 hm2)).mp
      (Nat.le_antisymm hle1 hle2)
  have hkz : n % c.length = 0 := by
    have hge : getElem? c 0 = getElem? c (n % c.length) := by
      rw [hh1, hh2, hheq]
    rw [List.getElem?_eq_getElem hLpos, List.getElem?_eq_getElem hkL] at hge
    exact ((List.Nodup.getElem_inj_iff hn).mp (Option.some.inj hge)).symm
  rw [hrot, hkz, List.rotate_zero]

/-! ### Further helper lemmas for the claim theorems -/

theorem find_circular_eq (st : GenState) :
    (find_circular_dependencies st).1 =
      simpleCycles (buildIfEmpty st).program_nodes
        (restrictedCallEdges (buildIfEmpty st)) := rfl

theorem isElemCycle_dedup {ns : List String} {es : List (String × String)}
    {c : List String} :
    IsElemCycle ns.dedup es c ↔ IsElemCycle ns es c := by
  unfold IsElemCycle
  constructor
  · rintro ⟨h1, h2, h3, h4⟩
    exact ⟨h1, h2, fun x hx => List.mem_dedup.mp (h3 x hx), h4⟩
  · rintro ⟨h1, h2, h3, h4⟩
    exact ⟨h1, h2, fun x hx => List.mem_dedup.mpr (h3 x hx), h4⟩

theorem buildIfEmpty_buildFrom (as : List ProgramInfo) :
    buildIfEmpty (buildFrom as) = buildFrom as := by
  by_cases ha : as = []
  · subst ha
    unfold buildIfEmpty
    by_cases h : (buildFrom []).graph_nodes = []
    · rw [if_pos h]
      apply build_graph_of_analyzers_nil
      show (build_graph (initState [])).analyzers = []
      rw [build_graph_analyzers]
      rfl
    · rw [if_neg h]
  · unfold buildIfEmpty
    rw [if_neg]
    apply build_graph_nodes_ne_nil
    show (initState as).analyzers ≠ []
    exact ha

theorem mem_nodeIds_buildFrom {as : List ProgramInfo} {n : String} :
    n ∈ nodeIds (buildFrom as) ↔
      ∃ f ∈ as, n = progKey f ∨ n ∈ f.calls ∨ n ∈ f.files_used := by
  show n ∈ nodeIds (as.foldl ingestFact (initState as)) ↔ _
  rw [mem_nodeIds_foldl_ingestFact]
  have hinit : (n ∈ nodeIds (initState as)) = False := by
    simp [nodeIds, initState]
  rw [hinit, false_or]

theorem mem_edgePairs_buildFrom {as : List ProgramInfo} {q : String × String} :
    q ∈ edgePairs (buildFrom as) ↔
      ∃ f ∈ as, (∃ c ∈ f.calls, q = (progKey f, c)) ∨
        ∃ x ∈ f.files_used, q = (progKey f, x) := by
  show q ∈ edgePairs (as.foldl ingestFact (initState as)) ↔ _
  rw [mem_edgePairs_foldl_ingestFact]
  have hinit : (q ∈ edgePairs (initState as)) = False := by
    simp [edgePairs, initState]
  rw [hinit, false_or]

theorem buildFrom_analyzers (as : List ProgramInfo) :
    (buildFrom as).analyzers = as := by
  show (build_graph (initState as)).analyzers = as
  rw [build_graph_analyzers]
  rfl

theorem mem_nodeIds_rebuild {as : List ProgramInfo} {n : String} :
    n ∈ nodeIds (build_graph (buildFrom as)) ↔ n ∈ nodeIds (buildFrom as) := by
  constructor
  · intro h
    have h2 : n ∈ nodeIds ((buildFrom as).analyzers.foldl ingestFact
        (buildFrom as)) := h
    rw [mem_nodeIds_foldl_ingestFact] at h2
    rcases h2 with h2 | ⟨f, hf, hP⟩
    · exact h2
    · rw [buildFrom_analyzers] at hf
      exact mem_nodeIds_buildFrom.mpr ⟨f, hf, hP⟩
  · intro h
    have h2 : n ∈ nodeIds ((buildFrom as).analyzers.foldl ingestFact
        (buildFrom as)) := by
      rw [mem_nodeIds_foldl_ingestFact]
      exact Or.inl h
    exact h2

theorem mem_edgePairs_rebuild {as : List ProgramInfo} {q : String × String} :
    q ∈ edgePairs (build_graph (buildFrom as)) ↔
      q ∈ edgePairs (buildFrom as) := by
  constructor
  · intro h
    have h2 : q ∈ edgePairs ((buildFrom as).analyzers.foldl ingestFact
        (buildFrom as)) := h
    rw [mem_edgePairs_foldl_ingestFact] at h2
    rcases h2 with h2 | ⟨f, hf, hP⟩
    · exact h2
    · rw [buildFrom_analyzers] at hf
      exact mem_edgePairs_buildFrom.mpr ⟨f, hf, hP⟩
  · intro h
    have h2 : q ∈ edgePairs ((buildFrom as).analyzers.foldl ingestFact
        (buildFrom as)) := by
      rw [mem_edgePairs_foldl_ingestFact]
      exact Or.inl h
    exact h2

/-! ### Claim C1 -/

/-- C1 counterexample: ingesting the facts with program id "P" and line
counts 10 then 50 leaves `loc = 50` on the node (the second fact overwrote
the first), not the first-seen 10 that the claim asserts. -/
theorem C1_counterexample :
    nodeAttr (buildFrom exConflict) "P" =
      some { node_type := some "program", loc := some 50, file := some "f2" } ∧
    (nodeAttr (buildFrom exConflict) "P").map NodeAttrs.loc ≠
      some (some 10) := by
  constructor
  · rfl
  · decide

/-- C1 amended: for two facts resolving to the same program id, the second
fact's `lines_of_code` and `file_name` overwrite the first-seen values on the
node (networkx `add_node` updates the attributes of an existing node); the
builder keeps no warning list, so no conflict is recorded anywhere. -/
theorem C1_overwrite (f1 f2 : ProgramInfo) (h : progKey f1 = progKey f2) :
    ∃ b, nodeAttr (buildFrom [f1, f2]) (progKey f2) = some b ∧
      b.loc = some f2.lines_of_code ∧ b.file = some f2.file_name := by
  show ∃ b, nodeAttr (ingestFact (ingestFact (initState [f1, f2]) f1) f2)
      (progKey f2) = some b ∧ _ ∧ _
  exact locFile_ingestFact_self (ingestFact (initState [f1, f2]) f1) f2

theorem C1_overwrite_witness :
    progKey (mkFact (some "P") "f1" 10 [] []) =
      progKey (mkFact (some "P") "f2" 50 [] []) ∧
    ∃ b, nodeAttr
        (buildFrom [mkFact (some "P") "f1" 10 [] [],
          mkFact (some "P") "f2" 50 [] []])
        (progKey (mkFact (some "P") "f2" 50 [] [])) = some b ∧
      b.loc = some (mkFact (some "P") "f2" 50 [] []).lines_of_code ∧
      b.file = some (mkFact (some "P") "f2" 50 [] []).file_name :=
  ⟨by decide, C1_overwrite (mkFact (some "P") "f1" 10 [] [])
    (mkFact (some "P") "f2" 50 [] []) (by decide)⟩

/-! ### Claim C2 -/

/-- C2 counterexample: a fact with no program id is not rejected; the node
"F.cob" (its file name) is created from it, and nothing resembling a
MalformedFact warning exists in the generator state. -/
theorem C2_counterexample :
    nodeIds (buildFrom [exNoId]) = ["F.cob"] ∧
    (buildFrom [exNoId]).graph_nodes.length = 1 := by
  constructor <;> rfl

/-- C2 amended: a fact with a missing program id is ingested normally using
its source file name as the node id (`info.program_id or info.file_name`);
no warning is recorded and the remaining facts are still ingested. -/
theorem C2_fallback (f : ProgramInfo) (rest : List ProgramInfo)
    (h : f.program_id = none) :
    progKey f = f.file_name ∧
    f.file_name ∈ nodeIds (buildFrom (f :: rest)) ∧
    ∀ g ∈ rest, progKey g ∈ nodeIds (buildFrom (f :: rest)) := by
  have hk : progKey f = f.file_name := by
    unfold progKey
    rw [h]
  refine ⟨hk, ?_, ?_⟩
  · exact mem_nodeIds_buildFrom.mpr
      ⟨f, List.mem_cons_self _ _, Or.inl hk.symm⟩
  · intro g hg
    exact mem_nodeIds_buildFrom.mpr
      ⟨g, List.mem_cons_of_mem _ hg, Or.inl rfl⟩

theorem C2_fallback_witness :
    exNoId.program_id = none ∧
    (progKey exNoId = exNoId.file_name ∧
      exNoId.file_name ∈ nodeIds (buildFrom (exNoId :: exSelfLoop)) ∧
      ∀ g ∈ exSelfLoop,
        progKey g ∈ nodeIds (buildFrom (exNoId :: exSelfLoop))) :=
  ⟨by decide, C2_fallback exNoId exSelfLoop (by decide)⟩

/-! ### Claim C9 -/

/-- C9 counterexample: on a fresh generator with a nonempty analyzer list the
graph is empty, so `get_statistics` lazily calls `build_graph` and mutates
the builder state. -/
theorem C9_counterexample :
    (get_statistics (initState exPhantom)).2 ≠ initState exPhantom := by
  decide

/-- C9 amended: `get_statistics` leaves the state unchanged whenever the
graph is already nonempty; when the graph is empty it first builds it,
mutating the builder.  In all cases repeated calls return equal reports. -/
theorem C9_read_only : ∀ st : GenState,
    (st.graph_nodes ≠ [] → (get_statistics st).2 = st) ∧
    (get_statistics ((get_statistics st).2)).1 = (get_statistics st).1 := by
  intro st
  constructor
  · intro h
    show buildIfEmpty st = st
    unfold buildIfEmpty
    rw [if_neg h]
  · show statsOf (buildIfEmpty (buildIfEmpty st)) = statsOf (buildIfEmpty st)
    rw [buildIfEmpty_idem]

theorem C9_read_only_witness :
    (buildFrom exPhantom).graph_nodes ≠ [] ∧
    (get_statistics (buildFrom exPhantom)).2 = buildFrom exPhantom :=
  ⟨by decide, (C9_read_only (buildFrom exPhantom)).1 (by decide)⟩

/-! ### Claim C10 -/

/-- C10: the `try ... except: return []` wrapper of
`find_circular_dependencies` maps any enumeration failure to the empty list,
which is exactly the value returned for an acyclic graph, so the two are
indistinguishable to the caller; and the function is this wrapper applied to
the enumeration attempt. -/
theorem C10_recover : ∀ e : String,
    recoverCycles (Except.error e) = [] ∧
    recoverCycles (Except.error e) = recoverCycles (Except.ok []) ∧
    ∀ st : GenState, (find_circular_dependencies st).1 =
      recoverCycles (cyclesAttempt (buildIfEmpty st)) := by
  intro e
  exact ⟨rfl, rfl, fun st => rfl⟩

/-! ### Claim C3 -/

/-- C3 counterexample: after ingesting `exKindOverwrite` the attribute
subgraph of Program-kind nodes and Calls edges of the built graph is acyclic
(the edge (A, B) carries `edge_type = "uses"` after the overwrite), yet the
cycle search returns a cycle, because it reads the accumulated call pairs
and the analyzed-program set, not the graph attributes. -/
theorem C3_counterexample :
    (find_circular_dependencies (buildFrom exKindOverwrite)).1 ≠ [] ∧
    simpleCycles (attrProgramNodes (buildFrom exKindOverwrite))
      (attrCallEdges (buildFrom exKindOverwrite)) = [] := by
  constructor
  · decide
  · rfl

/-- C3 amended: the cycle search enumerates exactly the elementary cycles of
the graph whose vertices are the analyzed program ids (`program_nodes`) and
whose edges are the recorded call pairs between analyzed ids, each cycle
reported exactly once with rotations never duplicated, and the single fact
A-calls-A yields exactly the cycle list with the one cycle A. -/
theorem C3_enumeration :
    (∀ st : GenState,
      (∀ c ∈ (find_circular_dependencies st).1,
        IsElemCycle (buildIfEmpty st).program_nodes
          (restrictedCallEdges (buildIfEmpty st)) c) ∧
      (∀ c, IsElemCycle (buildIfEmpty st).program_nodes
          (restrictedCallEdges (buildIfEmpty st)) c →
        ∃ d ∈ (find_circular_dependencies st).1, IsRotation c d) ∧
      (∀ c ∈ (find_circular_dependencies st).1,
        ∀ d ∈ (find_circular_dependencies st).1, IsRotation c d → c = d) ∧
      (find_circular_dependencies st).1.Nodup) ∧
    (find_circular_dependencies (buildFrom exSelfLoop)).1 = [["A"]] := by
  constructor
  · intro st
    refine ⟨?_, ?_, ?_, ?_⟩
    · intro c hc
      rw [find_circular_eq] at hc
      exact isElemCycle_dedup.mp (mem_simpleCycles.mp hc).1
    · intro c hcyc
      obtain ⟨k, hk⟩ :=
        exists_canonList_rotate (buildIfEmpty st).program_nodes.dedup hcyc.1
      refine ⟨c.rotate k, ?_, ⟨k, rfl⟩⟩
      rw [find_circular_eq]
      apply mem_simpleCycles.mpr
      exact ⟨isElemCycle_dedup.mpr (isElemCycle_rotate.mpr hcyc), hk⟩
    · intro c hc d hd hrot
      rw [find_circular_eq] at hc hd
      obtain ⟨hcycc, hcanc⟩ := mem_simpleCycles.mp hc
      obtain ⟨hcycd, hcand⟩ := mem_simpleCycles.mp hd
      obtain ⟨n, hn⟩ := hrot
      have hd2 : canonList (buildIfEmpty st).program_nodes.dedup
          (c.rotate n) = true := by
        rw [hn]
        exact hcand
      have hcc := canonList_rotate_eq_self hcycc.2.1 hcycc.2.2.1 hcanc hd2
      rw [← hn, hcc]
    · rw [find_circular_eq]
      exact nodup_simpleCycles _ _
  · rfl

theorem C3_enumeration_witness :
    IsElemCycle (buildIfEmpty (buildFrom exSelfLoop)).program_nodes
      (restrictedCallEdges (buildIfEmpty (buildFrom exSelfLoop))) ["A"] ∧
    ∃ d ∈ (find_circular_dependencies (buildFrom exSelfLoop)).1,
      IsRotation ["A"] d :=
  ⟨by decide, (C3_enumeration.1 (buildFrom exSelfLoop)).2.1 ["A"] (by decide)⟩

/-! ### Claim C4 -/

/-- C4 counterexample: on a graph with two elementary cycles the search
returns both of them; there is no `maxCycles` parameter, so it never returns
exactly one cycle with a truncation flag as the claim asserts. -/
theorem C4_counterexample :
    (find_circular_dependencies (buildFrom exTwoLoops)).1.length = 2 ∧
    ¬ (find_circular_dependencies (buildFrom exTwoLoops)).1.length = 1 := by
  constructor
  · rfl
  · decide

/-- C4 amended: `find_circular_dependencies` accepts no `maxCycles` bound and
no deadline; it always returns the complete elementary-cycle enumeration of
the restricted call graph (or the empty list on an internal failure), with
no truncation flag: a graph with two cycles yields both. -/
theorem C4_unbounded :
    (∀ st : GenState, (find_circular_dependencies st).1 =
      simpleCycles (buildIfEmpty st).program_nodes
        (restrictedCallEdges (buildIfEmpty st))) ∧
    ["A"] ∈ (find_circular_dependencies (buildFrom exTwoLoops)).1 ∧
    ["B"] ∈ (find_circular_dependencies (buildFrom exTwoLoops)).1 ∧
    (find_circular_dependencies (buildFrom exTwoLoops)).1.length = 2 := by
  refine ⟨fun st => rfl, ?_, ?_, rfl⟩ <;> decide

/-! ### Claim C5 -/

/-- C5: the concrete scenario A calls B and C, B calls C, C calls A: the
nodes are exactly A, B, C, all Program kind; the edges are exactly the four
Calls edges A to B, A to C, B to C, C to A; the cycle search returns exactly
the two elementary cycles A-C and A-B-C; the SCC count reported by the
statistics is 1. -/
theorem C5_concrete_scenario :
    nodeIds (buildFrom exABC) = ["A", "B", "C"] ∧
    (buildFrom exABC).graph_nodes.all
      (fun p => decide (p.2.node_type = some "program")) = true ∧
    (buildFrom exABC).graph_edges =
      [("A", "B", "calls"), ("A", "C", "calls"), ("B", "C", "calls"),
        ("C", "A", "calls")] ∧
    ["A", "C"] ∈ (find_circular_dependencies (buildFrom exABC)).1 ∧
    ["A", "B", "C"] ∈ (find_circular_dependencies (buildFrom exABC)).1 ∧
    (find_circular_dependencies (buildFrom exABC)).1.length = 2 ∧
    (get_statistics (buildFrom exABC)).1.strongly_connected_components = 1 := by
  refine ⟨rfl, rfl, rfl, ?_, ?_, rfl, rfl⟩ <;> decide

/-! ### Claim C6 -/

/-- C6 counterexample: with the single fact A-calls-X the statistics report
counts only the analyzed program A in `program_nodes` (1), not the phantom
node X, so the per-kind node counts 1 + 0 do not sum to `total_nodes` = 2. -/
theorem C6_counterexample :
    (get_statistics (buildFrom exPhantom)).1.program_nodes +
      (get_statistics (buildFrom exPhantom)).1.file_nodes ≠
      (get_statistics (buildFrom exPhantom)).1.total_nodes := by
  decide

/-- C6 amended: the fact A-calls-X creates the phantom Program node X with no
`loc` and no `file` attribute and the Calls edge (A, X); but X is absent from
the builder's `program_nodes` set, so the statistics count it only in
`total_nodes` (2), not in the per-kind `program_nodes` count (1). -/
theorem C6_phantom :
    nodeAttr (buildFrom exPhantom) "X" =
      some { node_type := some "program", loc := none, file := none } ∧
    ("A", "X", "calls") ∈ (buildFrom exPhantom).graph_edges ∧
    "X" ∉ (buildFrom exPhantom).program_nodes ∧
    (get_statistics (buildFrom exPhantom)).1.program_nodes = 1 ∧
    (get_statistics (buildFrom exPhantom)).1.total_nodes = 2 := by
  refine ⟨rfl, ?_, ?_, rfl, rfl⟩ <;> decide

/-! ### Claim C7 -/

/-- C7 counterexample: ingesting the same call fact twice leaves a single
edge in the graph but the statistics `call_edges` count is 2, the length of
the accumulated occurrence list, not the number of distinct triples. -/
theorem C7_counterexample :
    (get_statistics (buildFrom exDupFacts)).1.call_edges = 2 ∧
    (buildFrom exDupFacts).graph_edges.length = 1 := by
  constructor <;> rfl

/-- C7 amended: the built graph holds at most one edge per ordered endpoint
pair (hence per triple), but the per-kind edge counts in the statistics are
the lengths of the accumulated `call_edges` and `file_edges` lists, one
entry per fact-and-target occurrence, which can exceed the number of
distinct edges. -/
theorem C7_edge_counts : ∀ as : List ProgramInfo,
    (edgePairs (buildFrom as)).Nodup ∧
    (get_statistics (buildFrom as)).1.call_edges =
      (as.map (fun f => f.calls.length)).sum ∧
    (get_statistics (buildFrom as)).1.file_edges =
      (as.map (fun f => f.files_used.length)).sum := by
  intro as
  have hstats : (get_statistics (buildFrom as)).1 = statsOf (buildFrom as) := by
    show statsOf (buildIfEmpty (buildFrom as)) = statsOf (buildFrom as)
    rw [buildIfEmpty_buildFrom]
  refine ⟨?_, ?_, ?_⟩
  · show (edgePairs (as.foldl ingestFact (initState as))).Nodup
    exact nodup_edgePairs_foldl_ingestFact List.nodup_nil
  · rw [hstats]
    show (buildFrom as).call_edges.length = _
    have hb : (buildFrom as).call_edges =
        as.flatMap (fun f => f.calls.map (fun c => (progKey f, c))) := by
      show (as.foldl ingestFact (initState as)).call_edges = _
      rw [foldl_ingestFact_call_edges]
      rfl
    rw [hb, List.length_flatMap]
    congr 1
    apply List.map_congr_left
    intro f _
    simp
  · rw [hstats]
    show (buildFrom as).file_edges.length = _
    have hb : (buildFrom as).file_edges =
        as.flatMap (fun f => f.files_used.map (fun x => (progKey f, x))) := by
      show (as.foldl ingestFact (initState as)).file_edges = _
      rw [foldl_ingestFact_file_edges]
      rfl
    rw [hb, List.length_flatMap]
    congr 1
    apply List.map_congr_left
    intro f _
    simp

/-! ### Claim C8 -/

/-- C8 counterexample, refuting both halves of the claim.  First, the edge
identity sets (source, target, kind) are not reorder-invariant: ingesting
the call fact A-calls-B and then the duplicate-id fact A-uses-file-B leaves
the single edge (A, B, "uses"), while the reversed order leaves
(A, B, "calls") — the same endpoint pair with a different kind, because each
`add_edge` overwrites the `edge_type` of the existing (A, B) edge.  Second,
running `build_graph` a second time over the same facts doubles the
accumulated `call_edges` list, so the derived `call_edges` statistic changes
from 1 to 2 — rebuilding is not idempotent for the derived counts. -/
theorem C8_counterexample :
    List.Perm [exCallOnly, exFileOnly] [exFileOnly, exCallOnly] ∧
    (buildFrom [exCallOnly, exFileOnly]).graph_edges =
      [("A", "B", "uses")] ∧
    (buildFrom [exFileOnly, exCallOnly]).graph_edges =
      [("A", "B", "calls")] ∧
    (get_statistics (buildFrom exPhantom)).1.call_edges = 1 ∧
    (get_statistics (build_graph (buildFrom exPhantom))).1.call_edges = 2 := by
  refine ⟨?_, rfl, rfl, rfl, rfl⟩
  decide

/-- C8 amended: building from the same facts in any order yields the same
node id set and the same edge endpoint-pair set (the `edge_type` attribute
of a pair may differ under reordering when the same pair arises both as a
call and as a file use); rebuilding preserves the node and edge sets but
appends duplicate entries to the bookkeeping lists, changing the derived
per-kind edge counts. -/
theorem C8_determinism :
    (∀ as1 as2 : List ProgramInfo, as1.Perm as2 →
      (∀ n, n ∈ nodeIds (buildFrom as1) ↔ n ∈ nodeIds (buildFrom as2)) ∧
      (∀ q : String × String,
        q ∈ edgePairs (buildFrom as1) ↔ q ∈ edgePairs (buildFrom as2))) ∧
    (∀ as : List ProgramInfo,
      (∀ n, n ∈ nodeIds (build_graph (buildFrom as)) ↔
        n ∈ nodeIds (buildFrom as)) ∧
      (∀ q : String × String,
        q ∈ edgePairs (build_graph (buildFrom as)) ↔
          q ∈ edgePairs (buildFrom as))) := by
  constructor
  · intro as1 as2 hp
    constructor
    · intro n
      rw [mem_nodeIds_buildFrom, mem_nodeIds_buildFrom]
      constructor
      · rintro ⟨f, hf, h⟩
        exact ⟨f, hp.mem_iff.mp hf, h⟩
      · rintro ⟨f, hf, h⟩
        exact ⟨f, hp.mem_iff.mpr hf, h⟩
    · intro q
      rw [mem_edgePairs_buildFrom, mem_edgePairs_buildFrom]
      constructor
      · rintro ⟨f, hf, h⟩
        exact ⟨f, hp.mem_iff.mp hf, h⟩
      · rintro ⟨f, hf, h⟩
        exact ⟨f, hp.mem_iff.mpr hf, h⟩
  · intro as
    exact ⟨fun n => mem_nodeIds_rebuild, fun q => mem_edgePairs_rebuild⟩

theorem C8_determinism_witness :
    (exDupFacts.Perm exDupFacts.reverse) ∧
    ("A" ∈ nodeIds (buildFrom exDupFacts) ↔
      "A" ∈ nodeIds (buildFrom exDupFacts.reverse)) :=
  ⟨by decide, ((C8_determinism.1 exDupFacts exDupFacts.reverse (by decide)).1 "A")⟩

end CobolAnalyzer
